import Mathlib

/-!
Verification of the DOE variant-synthesis and mesh-rescaling pipeline
(files `DOE_batch_setup.py`, `run_piston_scaling.py`, `Testing/Z_MeshScaler.py`).

Modelling conventions:
* Text is modelled as `List Char`; a file is a `List (List Char)` of lines
  (newline handling is abstracted away; Python's `readlines`/`write` round-trip
  lines unchanged).
* Python floats are modelled as exact rationals `ℚ`.  All numeric literals in
  the claims under test are exactly representable, and the formulas at issue
  are compared symbolically, so the double-rounding of CPython floats is
  orthogonal to every claim settled here.
* Python regular-expression fragments used by the code are translated into
  explicit character-list matchers, following the source patterns one regex
  atom at a time (greedy `\d*`, optional groups, backtracking where the source
  pattern allows it).
-/

namespace GapDOE

/-- ASCII whitespace recognised by `\s` and `str.strip` (the files under test
are ASCII; the Unicode extras of Python's `\s` never occur in them). -/
def isWS (c : Char) : Bool := c = ' ' ∨ c = '\t' ∨ c = '\n' ∨ c = '\r' ∨ c = '\x0b' ∨ c = '\x0c'

def isDigit (c : Char) : Bool := '0' ≤ c ∧ c ≤ '9'

/-! ## MeshRescaler: the Z-coordinate transform

From `PistonScalingRunner.scale_z_mesh` (DOE_batch_setup.py:656-667), identical
to `scale_z` (Testing/Z_MeshScaler.py:45-56). -/

/-- The source's Z transform:
`if z <= z1: new_z = z`
`elif z <= z2: new_z = z1new if z2 - z1 == 0 else z1new + (z - z1) * (z2new - z1new) / (z2 - z1)`
`else: new_z = z + (z2new - z2)`. -/
def scaleZ (z1 z1new z2 z2new z : ℚ) : ℚ :=
  if z ≤ z1 then z
  else if z ≤ z2 then
    if z2 - z1 = 0 then z1new
    else z1new + (z - z1) * (z2new - z1new) / (z2 - z1)
  else z + (z2new - z2)

/-- The claim's 3-segment piecewise-linear map, written from the spec's words:
z ≤ z1 unchanged; z1 < z ≤ z2 interpolated (z1new when z2 = z1); z > z2 offset. -/
def claimScaleZ (z1 z1new z2 z2new z : ℚ) : ℚ :=
  if z ≤ z1 then z
  else if z1 < z ∧ z ≤ z2 then
    if z2 = z1 then z1new
    else z1new + (z - z1) * (z2new - z1new) / (z2 - z1)
  else z + (z2new - z2)

theorem scaleZ_eq_claim (z1 z1new z2 z2new z : ℚ) :
    scaleZ z1 z1new z2 z2new z = claimScaleZ z1 z1new z2 z2new z := by
  unfold scaleZ claimScaleZ
  by_cases h1 : z ≤ z1
  · simp [h1]
  · have hlt : z1 < z := lt_of_not_le h1
    by_cases h2 : z ≤ z2
    · simp only [h1, if_false, h2, if_true, hlt, true_and, sub_eq_zero]
    · simp [h1, h2, hlt]

/-! ## Text primitives -/

/-- Python `str.strip()`: drop whitespace from both ends. -/
def pyStrip (l : List Char) : List Char :=
  ((l.dropWhile isWS).reverse.dropWhile isWS).reverse

/-- Python `str.split(sep)` for a one-character separator: split at every
occurrence, keeping empty pieces. -/
def splitCommaAux : List Char → List Char → List (List Char)
  | [], cur => [cur.reverse]
  | c :: cs, cur =>
    if c = ',' then cur.reverse :: splitCommaAux cs [] else splitCommaAux cs (c :: cur)

def splitComma (l : List Char) : List (List Char) := splitCommaAux l []

/-- Value of a (non-empty) run of decimal digits. -/
def digitsVal (l : List Char) : ℕ := l.foldl (fun a c => 10 * a + (c.toNat - 48)) 0

/-- The syntactic shape of a numeric literal accepted by Python `float`:
optional sign, integer digits, fractional digits, optional signed exponent
(`expDigits = []` means no exponent part). -/
structure FloatLit where
  neg : Bool
  intPart : List Char
  fracPart : List Char
  expNeg : Bool
  expDigits : List Char
deriving DecidableEq

/-- Tokenize `float(s)`-style input (already stripped), for the ordinary forms
`[+|-] digits [. digits] [(e|E) [+|-] digits]` with at least one mantissa
digit.  Exotic inputs `float` also accepts (`inf`, `nan`, digit-group
underscores) are mapped to `none`; they do not occur in the files under test
and no claim depends on them. -/
def pyFloatTok? (s : List Char) : Option FloatLit :=
  let neg : Bool := match s with
    | c :: _ => c = '-'
    | [] => false
  let r0 : List Char := match s with
    | c :: r => if c = '+' ∨ c = '-' then r else s
    | [] => []
  let intPart := r0.takeWhile isDigit
  let r1 := r0.dropWhile isDigit
  let hasDot : Bool := match r1 with
    | '.' :: _ => true
    | _ => false
  let fracPart : List Char := match r1 with
    | '.' :: r => r.takeWhile isDigit
    | _ => []
  let r2 : List Char := match r1 with
    | '.' :: r => r.dropWhile isDigit
    | _ => r1
  if intPart.isEmpty ∧ (fracPart.isEmpty ∨ hasDot = false) then none
  else
    match r2 with
    | [] => some ⟨neg, intPart, fracPart, false, []⟩
    | c :: r3 =>
      if c = 'e' ∨ c = 'E' then
        let expNeg : Bool := match r3 with
          | d :: _ => d = '-'
          | [] => false
        let r4 : List Char := match r3 with
          | d :: rr => if d = '+' ∨ d = '-' then rr else r3
          | [] => []
        let eDigits := r4.takeWhile isDigit
        let r5 := r4.dropWhile isDigit
        if eDigits.isEmpty ∨ ¬ r5.isEmpty then none
        else some ⟨neg, intPart, fracPart, expNeg, eDigits⟩
      else none

/-- Exact rational value denoted by a tokenized literal (CPython then rounds
it to the nearest double; see the file header). -/
def litVal (t : FloatLit) : ℚ :=
  let mant : ℚ := (digitsVal t.intPart : ℚ) +
    (digitsVal t.fracPart : ℚ) / (10 : ℚ) ^ t.fracPart.length
  let scaled : ℚ :=
    if t.expNeg then mant / (10 : ℚ) ^ digitsVal t.expDigits
    else mant * (10 : ℚ) ^ digitsVal t.expDigits
  if t.neg then -scaled else scaled

/-- Python `float(s)` on an already-stripped string, as an exact rational. -/
def pyFloat? (s : List Char) : Option ℚ := (pyFloatTok? s).map litVal

/-! ## MeshRescaler: the streaming loop

From the loop of `scale_z_mesh` (DOE_batch_setup.py:629-672) / `scale_z`
(Testing/Z_MeshScaler.py:18-61).  One output line is written per input line.
The fixed-width Abaqus-style formatting of a transformed record
(`f"{node_id:10}, {x:20.13E}, {y:20.13E}, {new_z:20.13E}\n"`) is abstracted
into the `node` constructor carrying the numeric payload; pass-through lines
keep their exact characters in `verbatim`. -/

structure MeshCfg where
  z1 : ℚ
  z1new : ℚ
  z2 : ℚ
  z2new : ℚ
deriving DecidableEq

inductive OutLine
  | verbatim (line : List Char)
  | node (id : List Char) (x y zNew : ℚ)
deriving DecidableEq

/-- `stripped_line.startswith('*NODE')` -/
def isNodeHeader (stripped : List Char) : Bool :=
  ("*NODE".data).isPrefixOf stripped

/-- One iteration of the writer loop, on the in-node-section flag and one line. -/
def meshStep (cfg : MeshCfg) (inNode : Bool) (line : List Char) : Bool × OutLine :=
  let stripped := pyStrip line
  if isNodeHeader stripped then (true, .verbatim line)
  else
    let inNode2 := if inNode ∧ stripped.head? = some '*' then false else inNode
    if inNode2 ∧ ¬ stripped.isEmpty then
      match (splitComma stripped).map pyStrip with
      | [p0, p1, p2, p3] =>
        match pyFloat? p1, pyFloat? p2, pyFloat? p3 with
        | some x, some y, some z =>
          (inNode2, .node p0 x y (scaleZ cfg.z1 cfg.z1new cfg.z2 cfg.z2new z))
        | _, _, _ => (inNode2, .verbatim line)
      | _ => (inNode2, .verbatim line)
    else (inNode2, .verbatim line)

/-- The full streaming pass; total, so a malformed record never fails the run
(`scale_z_mesh` returns True whenever reading and writing succeed). -/
def meshRun (cfg : MeshCfg) : Bool → List (List Char) → List OutLine
  | _, [] => []
  | st, l :: ls =>
    let s := meshStep cfg st l
    s.2 :: meshRun cfg s.1 ls

theorem digitsVal_nil : digitsVal [] = 0 := rfl

theorem head_of_isNodeHeader {s : List Char} (h : isNodeHeader s = true) :
    s.head? = some '*' := by
  cases s with
  | nil => simp [isNodeHeader, List.isPrefixOf] at h
  | cons a t =>
    have hd : "*NODE".data = '*' :: "NODE".data := rfl
    rw [isNodeHeader, hd] at h
    simp only [List.isPrefixOf, Bool.and_eq_true, beq_iff_eq] at h
    simp [h.1.symm]

/-- A line inside a node section that is not a block marker and parses as a
4-field node record is emitted as a node record with only z transformed, and
the section state is unchanged. -/
theorem meshRun_node (cfg : MeshCfg) (l : List Char) (rest : List (List Char))
    (p0 p1 p2 p3 : List Char) (x y z : ℚ)
    (hstar : (pyStrip l).head? ≠ some '*')
    (hsplit : (splitComma (pyStrip l)).map pyStrip = [p0, p1, p2, p3])
    (hx : pyFloat? p1 = some x) (hy : pyFloat? p2 = some y) (hz : pyFloat? p3 = some z) :
    meshRun cfg true (l :: rest) =
      .node p0 x y (scaleZ cfg.z1 cfg.z1new cfg.z2 cfg.z2new z) :: meshRun cfg true rest := by
  have hstripne : (pyStrip l).isEmpty = false := by
    cases hemp : (pyStrip l).isEmpty
    · rfl
    · rw [List.isEmpty_iff] at hemp
      rw [hemp] at hsplit
      have := congrArg List.length hsplit
      simp [splitComma, splitCommaAux] at this
  have hhd : isNodeHeader (pyStrip l) = false := by
    cases hnh : isNodeHeader (pyStrip l)
    · rfl
    · exact absurd (head_of_isNodeHeader hnh) hstar
  have hstep : meshStep cfg true l =
      (true, .node p0 x y (scaleZ cfg.z1 cfg.z1new cfg.z2 cfg.z2new z)) := by
    rw [meshStep]
    simp only [hhd, Bool.false_eq_true, if_false, hstar, true_and, if_false, hstripne,
      Bool.not_false, if_true, hsplit, hx, hy, hz]
    simp [hstar, hstripne]
  rw [meshRun]
  rw [hstep]

/-- C4: every line inside a node block that does not split on commas into
exactly 4 fields, or whose x/y/z field fails numeric parsing, is written to the
destination unchanged, character-for-character, and processing simply continues
with the next line still inside the node block (`meshRun` is total, so a
malformed record never turns the rescale into a failure). -/
theorem claim_C4_malformed_passthrough (cfg : MeshCfg) (l : List Char) (rest : List (List Char))
    (hstar : (pyStrip l).head? ≠ some '*')
    (hbad : ((splitComma (pyStrip l)).map pyStrip).length ≠ 4 ∨
      pyFloat? (((splitComma (pyStrip l)).map pyStrip).getD 1 []) = none ∨
      pyFloat? (((splitComma (pyStrip l)).map pyStrip).getD 2 []) = none ∨
      pyFloat? (((splitComma (pyStrip l)).map pyStrip).getD 3 []) = none) :
    meshRun cfg true (l :: rest) = .verbatim l :: meshRun cfg true rest := by
  have hhd : isNodeHeader (pyStrip l) = false := by
    cases hnh : isNodeHeader (pyStrip l)
    · rfl
    · exact absurd (head_of_isNodeHeader hnh) hstar
  have hstep : meshStep cfg true l = (true, .verbatim l) := by
    rw [meshStep]
    simp only [hhd, Bool.false_eq_true, if_false, hstar, true_and, if_false]
    by_cases hemp : (pyStrip l).isEmpty
    · simp [hemp]
    · simp only [hemp, Bool.not_eq_true, not_false_eq_true, if_true]
      match hp : (splitComma (pyStrip l)).map pyStrip with
      | [] => simp [hemp]
      | [a] => simp [hemp]
      | [a, b] => simp [hemp]
      | [a, b, c] => simp [hemp]
      | a :: b :: c :: d :: e :: ts => simp [hemp]
      | [a, b, c, d] =>
        rw [hp] at hbad
        simp only [List.length_cons, List.length_nil, List.getD] at hbad
        rcases hbad with h4 | hb | hc | hd
        · omega
        · simp_all
        · cases hfb : pyFloat? b <;> simp_all
        · cases hfb : pyFloat? b <;> cases hfc : pyFloat? c <;> simp_all
  rw [meshRun]
  rw [hstep]

/-- C1: for every well-formed 4-field node record inside a node block, the
written z value is the claim's 3-segment piecewise-linear transform of the
parsed z (unchanged for z ≤ z1; interpolated on (z1, z2], with value z1new
when z2 = z1, so no division by zero for any input; offset by z2new − z2
beyond z2); in particular with z1=0, z1new=0, z2=10, z2new=20 a node at z=5
maps to 10 and a node at z=15 maps to 25. -/
theorem claim_C1_mesh_z_transform :
    (∀ z1 z1new z2 z2new z : ℚ, scaleZ z1 z1new z2 z2new z = claimScaleZ z1 z1new z2 z2new z) ∧
    scaleZ 0 0 10 20 5 = 10 ∧ scaleZ 0 0 10 20 15 = 25 ∧
    (∀ (cfg : MeshCfg) (l : List Char) (rest : List (List Char))
      (p0 p1 p2 p3 : List Char) (x y z : ℚ),
      (pyStrip l).head? ≠ some '*' →
      (splitComma (pyStrip l)).map pyStrip = [p0, p1, p2, p3] →
      pyFloat? p1 = some x → pyFloat? p2 = some y → pyFloat? p3 = some z →
      meshRun cfg true (l :: rest) =
        .node p0 x y (scaleZ cfg.z1 cfg.z1new cfg.z2 cfg.z2new z) :: meshRun cfg true rest) :=
  ⟨scaleZ_eq_claim, by norm_num [scaleZ], by norm_num [scaleZ], meshRun_node⟩

theorem claim_C1_mesh_z_transform_witness :
    meshRun ⟨0, 0, 10, 20⟩ true ["7, 1.0, 2.0, 5.0".data] = [.node "7".data 1 2 10] ∧
    meshRun ⟨0, 0, 10, 20⟩ true ["8, 1.0, 2.0, 15.".data] = [.node "8".data 1 2 25] := by
  have hx : pyFloat? "1.0".data = some 1 := by
    rw [pyFloat?, show pyFloatTok? "1.0".data = some ⟨false, ['1'], ['0'], false, []⟩ from by decide]
    norm_num [litVal, digitsVal_nil, show digitsVal ['1'] = 1 from by decide,
      show digitsVal ['0'] = 0 from by decide]
  have hy : pyFloat? "2.0".data = some 2 := by
    rw [pyFloat?, show pyFloatTok? "2.0".data = some ⟨false, ['2'], ['0'], false, []⟩ from by decide]
    norm_num [litVal, digitsVal_nil, show digitsVal ['2'] = 2 from by decide,
      show digitsVal ['0'] = 0 from by decide]
  have hz : pyFloat? "5.0".data = some 5 := by
    rw [pyFloat?, show pyFloatTok? "5.0".data = some ⟨false, ['5'], ['0'], false, []⟩ from by decide]
    norm_num [litVal, digitsVal_nil, show digitsVal ['5'] = 5 from by decide,
      show digitsVal ['0'] = 0 from by decide]
  have hz2 : pyFloat? "15.".data = some 15 := by
    rw [pyFloat?, show pyFloatTok? "15.".data = some ⟨false, ['1', '5'], [], false, []⟩ from by decide]
    norm_num [litVal, digitsVal_nil, show digitsVal ['1', '5'] = 15 from by decide]
  constructor
  · have h := claim_C1_mesh_z_transform.2.2.2 ⟨0, 0, 10, 20⟩ "7, 1.0, 2.0, 5.0".data []
      "7".data "1.0".data "2.0".data "5.0".data 1 2 5 (by decide) (by decide) hx hy hz
    rw [h]
    norm_num [scaleZ, meshRun]
  · have h := claim_C1_mesh_z_transform.2.2.2 ⟨0, 0, 10, 20⟩ "8, 1.0, 2.0, 15.".data []
      "8".data "1.0".data "2.0".data "15.".data 1 2 15 (by decide) (by decide) hx hy hz2
    rw [h]
    norm_num [scaleZ, meshRun]

theorem claim_C4_malformed_passthrough_witness :
    meshRun ⟨0, 0, 10, 20⟩ true ["1, 2, 3".data] = [.verbatim "1, 2, 3".data] ∧
    meshRun ⟨0, 0, 10, 20⟩ true ["1, abc, 3, 4".data] = [.verbatim "1, abc, 3, 4".data] := by
  constructor
  · have h := claim_C4_malformed_passthrough ⟨0, 0, 10, 20⟩ "1, 2, 3".data []
      (by decide) (Or.inl (by decide))
    simpa [meshRun] using h
  · have h := claim_C4_malformed_passthrough ⟨0, 0, 10, 20⟩ "1, abc, 3, 4".data []
      (by decide) (Or.inr (Or.inl (by decide)))
    simpa [meshRun] using h

/-! ## VariantDeriver

From `step2_create_scaled_piston_folders` (DOE_batch_setup.py:362-366). -/

structure GeometryValues where
  lK : ℚ
  lZ0 : ℚ
  lKG : ℚ
  lSK : ℚ
deriving DecidableEq

/-- `scaled_lk = base_lk + scale_value`, `scaled_lZ0 = base_lZ0 - scale_value`,
`scaled_lKG = base_lKG + (0.86 * scale_value)`,
`scaled_lSK = base_lSK + (0.45 * scale_value)`. -/
def deriveScaled (g : GeometryValues) (s : ℚ) : GeometryValues :=
  { lK := g.lK + s
    lZ0 := g.lZ0 - s
    lKG := g.lKG + 0.86 * s
    lSK := g.lSK + 0.45 * s }

/-- C2: for every base parameter set and scale factor s the derived values are
lK + s, lZ0 ± s (the code resolves the spec's open sign question to −s),
lKG + 0.86·s and lSK + 0.45·s; at base (100, 50, 30, 20) and s = 5 this gives
lK = 105, lKG = 34.3, lSK = 22.25. -/
theorem claim_C2_variant_deriver :
    (∀ (g : GeometryValues) (s : ℚ),
      (deriveScaled g s).lK = g.lK + s ∧
      ((deriveScaled g s).lZ0 = g.lZ0 - s ∨ (deriveScaled g s).lZ0 = g.lZ0 + s) ∧
      (deriveScaled g s).lKG = g.lKG + 0.86 * s ∧
      (deriveScaled g s).lSK = g.lSK + 0.45 * s) ∧
    (deriveScaled ⟨100, 50, 30, 20⟩ 5).lK = 105 ∧
    (deriveScaled ⟨100, 50, 30, 20⟩ 5).lKG = 34.3 ∧
    (deriveScaled ⟨100, 50, 30, 20⟩ 5).lSK = 22.25 := by
  refine ⟨fun g s => ⟨rfl, Or.inl rfl, rfl, rfl⟩, ?_, ?_, ?_⟩ <;> norm_num [deriveScaled]

/-! ## Variant directory names

`folder_name = f"IM_Scaled_piston_{int(scale_value)}"`
(DOE_batch_setup.py:349), while discovery globs `IM_scaled_piston_*`
(DOE_batch_setup.py:555,694; run_piston_scaling.py:84,130).
`int()` on a float truncates toward zero; decimal rendering of the resulting
integer is modelled with core's `Nat.toDigits 10`. -/

/-- Python `int(q)`: truncation toward zero. -/
def pyInt (q : ℚ) : ℤ := if q < 0 then ⌈q⌉ else ⌊q⌋

/-- Decimal rendering of an integer, as Python str() produces it. -/
def intDec (k : ℤ) : List Char := if k < 0 then '-' :: Nat.toDigits 10 k.natAbs else Nat.toDigits 10 k.toNat

/-- The name `step2_create_scaled_piston_folders` gives the variant directory
for a scale factor. -/
def scaledFolderName (s : ℚ) : List Char := "IM_Scaled_piston_".data ++ intDec (pyInt s)

/-- The literal prefix of the discovery pattern `IM_scaled_piston_*` used by
`copy_piston_pr_files` and `run_z_scaler`; a name matches the pattern iff this
is a prefix of it. -/
def scaledGlobPrefix : List Char := "IM_scaled_piston_".data

theorem toDigitsCore_append (b : ℕ) :
    ∀ (fuel n : ℕ) (acc : List Char),
      Nat.toDigitsCore b fuel n acc = Nat.toDigitsCore b fuel n [] ++ acc := by
  intro fuel
  induction fuel with
  | zero => intro n acc; simp [Nat.toDigitsCore]
  | succ f ih =>
    intro n acc
    rw [Nat.toDigitsCore]
    by_cases h : n / b = 0
    · simp [Nat.toDigitsCore, h]
    · rw [if_neg h, ih (n / b) (Nat.digitChar (n % b) :: acc)]
      conv_rhs => rw [Nat.toDigitsCore, if_neg h, ih (n / b) [Nat.digitChar (n % b)]]
      simp

theorem digitsVal_append_singleton (l : List Char) (c : Char) :
    digitsVal (l ++ [c]) = 10 * digitsVal l + (c.toNat - 48) := by
  simp [digitsVal, List.foldl_append]

theorem digitsVal_digitChar {d : ℕ} (h : d < 10) :
    (Nat.digitChar d).toNat - 48 = d := by
  interval_cases d <;> decide

theorem digitsVal_toDigitsCore :
    ∀ (fuel n : ℕ), n < fuel → digitsVal (Nat.toDigitsCore 10 fuel n []) = n := by
  intro fuel
  induction fuel with
  | zero => omega
  | succ f ih =>
    intro n hn
    rw [Nat.toDigitsCore]
    by_cases h : n / 10 = 0
    · rw [if_pos h]
      have h10 : n < 10 := by omega
      simp only [digitsVal, List.foldl, Nat.mul_zero, Nat.zero_add, Nat.mod_eq_of_lt h10]
      exact digitsVal_digitChar h10
    · rw [if_neg h]
      rw [toDigitsCore_append 10 f (n / 10) [Nat.digitChar (n % 10)]]
      rw [digitsVal_append_singleton, digitsVal_digitChar (Nat.mod_lt n (by norm_num))]
      have hdiv : n / 10 < f := by
        have h1 : n / 10 < n := Nat.div_lt_self (by omega) (by norm_num)
        omega
      rw [ih (n / 10) hdiv]
      omega

theorem digitsVal_toDigits (n : ℕ) : digitsVal (Nat.toDigits 10 n) = n := by
  rw [Nat.toDigits]
  exact digitsVal_toDigitsCore (n + 1) n (by omega)

theorem toDigits_inj {m n : ℕ} (h : Nat.toDigits 10 m = Nat.toDigits 10 n) : m = n := by
  have := congrArg digitsVal h
  rwa [digitsVal_toDigits, digitsVal_toDigits] at this

theorem mem_toDigitsCore10 :
    ∀ (fuel n : ℕ) (acc : List Char) (c : Char), c ∈ Nat.toDigitsCore 10 fuel n acc →
      c ∈ acc ∨ ∃ d, d < 10 ∧ c = Nat.digitChar d := by
  intro fuel
  induction fuel with
  | zero => intro n acc c hc; exact Or.inl hc
  | succ f ih =>
    intro n acc c hc
    rw [Nat.toDigitsCore] at hc
    by_cases h : n / 10 = 0
    · rw [if_pos h] at hc
      rcases hc with _ | hc
      · right; exact ⟨n % 10, Nat.mod_lt n (by norm_num), rfl⟩
      · left; assumption
    · rw [if_neg h] at hc
      rcases ih (n / 10) (Nat.digitChar (n % 10) :: acc) c hc with hacc | hd
      · rcases hacc with _ | hacc
        · right; exact ⟨n % 10, Nat.mod_lt n (by norm_num), rfl⟩
        · left; assumption
      · right; exact hd

theorem dash_not_mem_toDigits (n : ℕ) : '-' ∉ Nat.toDigits 10 n := by
  intro hmem
  rw [Nat.toDigits] at hmem
  rcases mem_toDigitsCore10 (n + 1) n [] '-' hmem with h | ⟨d, hd, heq⟩
  · simp at h
  · interval_cases d <;> exact absurd heq (by decide)

theorem intDec_inj {k l : ℤ} (h : intDec k = intDec l) : k = l := by
  rw [intDec, intDec] at h
  by_cases hk : k < 0 <;> by_cases hl : l < 0
  · rw [if_pos hk, if_pos hl] at h
    simp only [List.cons.injEq, true_and] at h
    have := toDigits_inj h
    omega
  · rw [if_pos hk, if_neg hl] at h
    exact absurd (h ▸ List.mem_cons_self '-' _) (dash_not_mem_toDigits l.toNat)
  · rw [if_neg hk, if_pos hl] at h
    exact absurd (h.symm ▸ List.mem_cons_self '-' _) (dash_not_mem_toDigits k.toNat)
  · rw [if_neg hk, if_neg hl] at h
    have := toDigits_inj h
    omega

/-- C3 counterexample: the directory synthesized for scale factor 5 is named
`IM_Scaled_piston_5` (capital S), which does not match the literal
`IM_scaled_piston_*` pattern that `copy_piston_pr_files` and `run_z_scaler`
glob for, so under case-sensitive matching the synthesized variant is not
discovered. -/
theorem claim_C3_counterexample :
    scaledGlobPrefix.isPrefixOf (scaledFolderName 5) = false := by
  have h5 : pyInt 5 = 5 := by
    rw [pyInt, if_neg (by norm_num : ¬ ((5 : ℚ) < 0))]
    norm_num
  rw [scaledFolderName, h5]
  decide

/-- C3 (amended): the synthesized variant directory name agrees with the
discovery pattern prefix only up to ASCII case — for every scale factor the
lower-cased name has the lower-cased glob prefix as a prefix, so discovery
succeeds exactly on case-insensitive filesystem/glob semantics (e.g. Windows),
while under case-sensitive semantics the names differ in the case of one
letter and the variant is never enumerated. -/
theorem claim_C3_case_insensitive_match :
    ∀ s : ℚ, ((scaledGlobPrefix.map Char.toLower).isPrefixOf
      ((scaledFolderName s).map Char.toLower)) = true := by
  intro s
  rw [scaledFolderName, List.map_append]
  have hpre : scaledGlobPrefix.map Char.toLower = "IM_Scaled_piston_".data.map Char.toLower := by
    decide
  rw [hpre, List.isPrefixOf_iff_prefix]
  exact List.prefix_append _ _

/-- C9 counterexample: the distinct scale factors 5.2 and 5.7 truncate to the
same integer 5, so synthesis maps both to the same variant directory name —
the two variant trees are merged/overwritten even though the scale factors
differ. -/
theorem claim_C9_counterexample :
    (26/5 : ℚ) ≠ 57/10 ∧ scaledFolderName (26/5) = scaledFolderName (57/10) := by
  constructor
  · norm_num
  · have h1 : pyInt (26/5) = 5 := by
      rw [pyInt, if_neg (by norm_num : ¬ ((26/5 : ℚ) < 0))]
      norm_num
    have h2 : pyInt (57/10) = 5 := by
      rw [pyInt, if_neg (by norm_num : ¬ ((57/10 : ℚ) < 0))]
      norm_num
    rw [scaledFolderName, scaledFolderName, h1, h2]

/-- C9 (amended): two scale factors receive the same variant directory name
exactly when their integer truncations coincide; in particular scale factors
with distinct truncations get distinct directories (never merged), and only
re-running synthesis for a scale factor with the same truncation overwrites a
variant's prior contents. -/
theorem claim_C9_folder_name_iff :
    ∀ s t : ℚ, scaledFolderName s = scaledFolderName t ↔ pyInt s = pyInt t := by
  intro s t
  constructor
  · intro h
    exact intDec_inj (List.append_cancel_left h)
  · intro h
    rw [scaledFolderName, scaledFolderName, h]

/-! ## Regex execution over the whole content

`step1_extract_geometry_values` (DOE_batch_setup.py:192-202), the geometry
rewrite of `step2_create_scaled_piston_folders` (405-432) and the
options-file rewrite (451-456) all run `re` patterns anchored with `^` over
the entire file content under `re.MULTILINE`.  Two facts drive the model:
* `^` matches at the start of the content and right after every `'\n'`, so
  every match starts at such a position, and `re.search`/`re.sub` take
  matches in left-to-right position order;
* `\s` matches `'\n'` as well (`re.MULTILINE` does not change `\s`), so the
  whitespace runs `\s*`/`\s+` inside the patterns may cross line breaks.
All the names these patterns mention (`lK`, `lZ0`, `lKG`, `lSK`,
`IM_piston_path`) start with a non-whitespace character, and what each
pattern requires after `\s+` also starts with a non-whitespace character (a
sign, digit or dot for the numeric patterns; for `.*$` the greedy maximal
run never needs shortening because `$` always holds at the line end), so the
greedy whitespace runs admit no backtracking and every match attempt is the
deterministic function below. -/

/-- The regex fragment `[-+]?\d*\.?\d+` matched greedily (with the
backtracking the pattern admits) at the head of `l`: the matched literal and
the remainder, or `none`. -/
def matchMantissa (l : List Char) : Option (List Char × List Char) :=
  let sgn : List Char := match l with
    | c :: _ => if c = '+' ∨ c = '-' then [c] else []
    | [] => []
  let r0 : List Char := match l with
    | c :: r => if c = '+' ∨ c = '-' then r else l
    | [] => []
  let a := r0.takeWhile isDigit
  let r1 := r0.dropWhile isDigit
  match r1 with
  | '.' :: r2 =>
    let b := r2.takeWhile isDigit
    let r3 := r2.dropWhile isDigit
    if b.isEmpty then (if a.isEmpty then none else some (sgn ++ a, r1))
    else some (sgn ++ a ++ '.' :: b, r3)
  | _ => if a.isEmpty then none else some (sgn ++ a, r1)

/-- The optional regex fragment `(?:[eE][-+]?\d+)?` at the head of `l`:
the matched exponent text (possibly empty) and the remainder. -/
def matchExpPart (l : List Char) : List Char × List Char :=
  match l with
  | c :: r =>
    if c = 'e' ∨ c = 'E' then
      let es : List Char := match r with
        | c2 :: _ => if c2 = '+' ∨ c2 = '-' then [c2] else []
        | [] => []
      let r2 : List Char := match r with
        | c2 :: r3 => if c2 = '+' ∨ c2 = '-' then r3 else r
        | [] => []
      let d := r2.takeWhile isDigit
      if d.isEmpty then ([], l) else (c :: (es ++ d), r2.dropWhile isDigit)
    else ([], l)
  | [] => ([], [])

/-- The extraction regex's capture group `[-+]?\d*\.?\d+(?:[eE][-+]?\d+)?`. -/
def matchNumberExp (l : List Char) : Option (List Char × List Char) :=
  match matchMantissa l with
  | some (m, r) =>
    let e := matchExpPart r
    some (m ++ e.1, e.2)
  | none => none

/-- The shared pattern skeleton `^\s*name\s+` attempted at one position of
the content; both whitespace runs may cross line breaks.  Returns the
group-1 prefix `ws0 ++ name ++ ws1` and the remainder. -/
def matchNamePrefix (name s : List Char) : Option (List Char × List Char) :=
  let ws0 := s.takeWhile isWS
  let r1 := s.dropWhile isWS
  if name.isPrefixOf r1 then
    let r2 := r1.drop name.length
    let ws1 := r2.takeWhile isWS
    if ws1.isEmpty then none else some (ws0 ++ name ++ ws1, r2.dropWhile isWS)
  else none

/-- The suffixes of the content that begin right after a `'\n'`: together
with the content itself these are the positions at which a `^`-anchored
pattern can match under `re.MULTILINE`, in left-to-right order. -/
def lineStartSuffixes : List Char → List (List Char)
  | [] => []
  | c :: rest =>
    if c = '\n' then rest :: lineStartSuffixes rest else lineStartSuffixes rest

theorem takeWhile_ws_append (ws : List Char) (c : Char) (t : List Char)
    (hws : ∀ a ∈ ws, isWS a = true) (hc : isWS c = false) :
    (ws ++ c :: t).takeWhile isWS = ws := by
  induction ws with
  | nil => simp [List.takeWhile_cons, hc]
  | cons a as ih =>
    have ha := hws a (List.mem_cons_self a as)
    simp only [List.cons_append, List.takeWhile_cons, ha, if_true, List.cons.injEq, true_and]
    exact ih fun y hy => hws y (List.mem_cons_of_mem a hy)

theorem dropWhile_ws_append (ws : List Char) (c : Char) (t : List Char)
    (hws : ∀ a ∈ ws, isWS a = true) (hc : isWS c = false) :
    (ws ++ c :: t).dropWhile isWS = c :: t := by
  induction ws with
  | nil => simp [List.dropWhile_cons, hc]
  | cons a as ih =>
    have ha := hws a (List.mem_cons_self a as)
    simp only [List.cons_append, List.dropWhile_cons, ha, if_true]
    exact ih fun y hy => hws y (List.mem_cons_of_mem a hy)

theorem takeWhile_ws_all (l : List Char) (h : ∀ a ∈ l, isWS a = true) :
    l.takeWhile isWS = l := by
  induction l with
  | nil => rfl
  | cons a as ih =>
    simp only [List.takeWhile_cons, h a (List.mem_cons_self a as), if_true, List.cons.injEq,
      true_and]
    exact ih fun y hy => h y (List.mem_cons_of_mem a hy)

theorem dropWhile_ws_all (l : List Char) (h : ∀ a ∈ l, isWS a = true) :
    l.dropWhile isWS = [] := by
  induction l with
  | nil => rfl
  | cons a as ih =>
    simp only [List.dropWhile_cons, h a (List.mem_cons_self a as), if_true]
    exact ih fun y hy => h y (List.mem_cons_of_mem a hy)

/-- The pattern skeleton on a position of the shape it is meant to match:
whitespace, the name, whitespace (non-empty), then material starting with a
non-whitespace character (or nothing). -/
theorem matchNamePrefix_spec (name ws0 ws1 X : List Char) (c : Char) (cs : List Char)
    (hn : name = c :: cs) (hc : isWS c = false)
    (hws0 : ∀ a ∈ ws0, isWS a = true) (hws1 : ∀ a ∈ ws1, isWS a = true)
    (hws1ne : ws1 ≠ [])
    (hX : ∀ hd, X.head? = some hd → isWS hd = false) :
    matchNamePrefix name (ws0 ++ name ++ ws1 ++ X) = some (ws0 ++ name ++ ws1, X) := by
  subst hn
  rw [matchNamePrefix]
  have htake : (ws0 ++ (c :: cs) ++ ws1 ++ X).takeWhile isWS = ws0 := by
    have he : ws0 ++ (c :: cs) ++ ws1 ++ X = ws0 ++ (c :: (cs ++ ws1 ++ X)) := by
      simp [List.append_assoc]
    rw [he]
    exact takeWhile_ws_append _ _ _ hws0 hc
  have hdrop : (ws0 ++ (c :: cs) ++ ws1 ++ X).dropWhile isWS = (c :: cs) ++ (ws1 ++ X) := by
    have he : ws0 ++ (c :: cs) ++ ws1 ++ X = ws0 ++ (c :: (cs ++ ws1 ++ X)) := by
      simp [List.append_assoc]
    rw [he, dropWhile_ws_append _ _ _ hws0 hc]
    simp [List.append_assoc]
  have hpref : (c :: cs).isPrefixOf ((c :: cs) ++ (ws1 ++ X)) = true := by
    rw [List.isPrefixOf_iff_prefix]
    exact List.prefix_append _ _
  have hlen : ((c :: cs) ++ (ws1 ++ X)).drop (c :: cs).length = ws1 ++ X :=
    List.drop_left _ _
  have htake1 : (ws1 ++ X).takeWhile isWS = ws1 := by
    cases hr : X with
    | nil =>
      rw [List.append_nil]
      exact takeWhile_ws_all _ hws1
    | cons hd tl =>
      exact takeWhile_ws_append _ _ _ hws1 (hX hd (by rw [hr]; rfl))
  have hdrop1 : (ws1 ++ X).dropWhile isWS = X := by
    cases hr : X with
    | nil =>
      rw [List.append_nil]
      exact dropWhile_ws_all _ hws1
    | cons hd tl =>
      exact dropWhile_ws_append _ _ _ hws1 (hX hd (by rw [hr]; rfl))
  have hws1emp : ws1.isEmpty = false := by
    cases ws1 with
    | nil => exact absurd rfl hws1ne
    | cons _ _ => rfl
  simp only [htake, hdrop, hpref, hlen, htake1, hdrop1, hws1emp, if_true,
    Bool.false_eq_true, if_false]

theorem findSome_first {α β : Type} (f : α → Option β) (pre : List α) (s : α)
    (post : List α) (b : β) (hpre : ∀ x ∈ pre, f x = none) (hs : f s = some b) :
    (pre ++ s :: post).findSome? f = some b := by
  induction pre with
  | nil => simp [List.findSome?, hs]
  | cons x xs ih =>
    rw [List.cons_append, List.findSome?, hpre x (List.mem_cons_self x xs)]
    exact ih fun y hy => hpre y (List.mem_cons_of_mem x hy)

theorem findSome_none {α β : Type} (f : α → Option β) (l : List α)
    (h : ∀ x ∈ l, f x = none) : l.findSome? f = none := by
  induction l with
  | nil => rfl
  | cons x xs ih =>
    rw [List.findSome?, h x (List.mem_cons_self x xs)]
    exact ih fun y hy => h y (List.mem_cons_of_mem x hy)

/-- One pass of `re.sub` for a `^`-anchored pattern over the whole content:
scan left to right; at each line start (content start, or right after a
`'\n'`) try the pattern; on a match emit the replacement and resume after
the matched text, otherwise emit the character and move on.  The fuel only
bounds the recursion — initialising it to the content length suffices, since
every step consumes at least one character.  Both callers' matched texts end
with a non-newline character (a mantissa digit, or `.*` stopping just before
a `'\n'`) unless nothing at all follows the match, so resuming in mid-line
state after a match is faithful. -/
def reSubGo (att : List Char → Option (List Char × List Char)) :
    ℕ → Bool → List Char → List Char
  | 0, _, l => l
  | fuel + 1, atStart, l =>
    match l with
    | [] => []
    | c :: rest =>
      if atStart then
        match att (c :: rest) with
        | some (out, rest2) => out ++ reSubGo att fuel false rest2
        | none => c :: reSubGo att fuel (c == '\n') rest
      else c :: reSubGo att fuel (c == '\n') rest

def reSub (att : List Char → Option (List Char × List Char)) (content : List Char) :
    List Char :=
  reSubGo att content.length true content

/-- If the attempt fails at the scan position (when it is a line start) and
at every later line start, the content passes through unchanged — for any
fuel, since pass-through consumes no fuel reserve. -/
theorem reSubGo_no_match (att : List Char → Option (List Char × List Char)) :
    ∀ (fuel : ℕ) (st : Bool) (l : List Char),
      (st = true → att l = none) →
      (∀ s ∈ lineStartSuffixes l, att s = none) →
      reSubGo att fuel st l = l := by
  intro fuel
  induction fuel with
  | zero => intro st l _ _; rfl
  | succ f ih =>
    intro st l h1 h2
    match l with
    | [] => cases st <;> rfl
    | c :: rest =>
      have hrest2 : ∀ s ∈ lineStartSuffixes rest, att s = none := by
        intro s hs
        apply h2
        rw [lineStartSuffixes]
        by_cases hc : c = '\n'
        · rw [if_pos hc]
          exact List.mem_cons_of_mem _ hs
        · rw [if_neg hc]
          exact hs
      have hrest1 : (c == '\n') = true → att rest = none := by
        intro hc
        apply h2
        rw [lineStartSuffixes, if_pos (eq_of_beq hc)]
        exact List.mem_cons_self _ _
      cases st with
      | false =>
        rw [reSubGo]
        simp only [Bool.false_eq_true, if_false]
        rw [ih (c == '\n') rest hrest1 hrest2]
      | true =>
        rw [reSubGo]
        simp only [if_true, h1 rfl]
        rw [ih (c == '\n') rest hrest1 hrest2]

/-- A match at the very start of the content, with no further match at any
later line start of its remainder, replaces exactly the matched text. -/
theorem reSub_head_match (att : List Char → Option (List Char × List Char))
    (content out rest2 : List Char) (hne : content ≠ [])
    (hatt : att content = some (out, rest2))
    (hafter : ∀ s ∈ lineStartSuffixes rest2, att s = none) :
    reSub att content = out ++ rest2 := by
  match content with
  | [] => exact absurd rfl hne
  | c :: rest =>
    rw [reSub, List.length_cons, reSubGo]
    simp only [if_true, hatt]
    rw [reSubGo_no_match att rest.length false rest2 (fun h => absurd h (by decide)) hafter]

/-! ## ParameterStore

From `step1_extract_geometry_values` (DOE_batch_setup.py:192-202):
`pattern = rf'^\s*{param}\s+([-+]?\d*\.?\d+(?:[eE][-+]?\d+)?)'` with
`re.search(pattern, content, re.MULTILINE)` and `float(match.group(1))`.
`re.search` returns the match at the leftmost admitting position, i.e. the
first line-start suffix whose attempt succeeds; because `\s+` also matches
`'\n'`, a name sitting alone at the end of a line captures the next numeric
literal ahead — even on a later line. -/

/-- The attempt of `^\s*{param}\s+(numlit)` at one position: the captured
literal. -/
def matchParamAt (param s : List Char) : Option (List Char) :=
  (matchNamePrefix param s).bind fun p => (matchNumberExp p.2).map Prod.fst

/-- `re.search` over the whole content: first line-start attempt to succeed. -/
def reSearchParam (param content : List Char) : Option (List Char) :=
  (content :: lineStartSuffixes content).findSome? (matchParamAt param)

/-- `step1`: the captured literal's value via `float(...)` (`getD 0` is
unreachable — a captured literal always tokenizes — and only keeps the
definition total); `None` when the search fails. -/
def extractParam (param content : List Char) : Option ℚ :=
  (reSearchParam param content).map fun lit => (pyFloat? lit).getD 0

/-- Written from the claim's words (the reading being refuted): the float of
the literal of the first LINE whose leading, optionally indented, token is
the name followed by whitespace and a numeric literal; absent when no line
qualifies. -/
def claimLineExtract (param : List Char) (lines : List (List Char)) : Option ℚ :=
  (lines.findSome? (matchParamAt param)).map fun lit => (pyFloat? lit).getD 0

/-- A position of the shape `ws* name ws+ numlit ...` is captured with that
literal, wherever it sits and whatever the (possibly line-crossing)
whitespace is. -/
theorem matchParamAt_found (param ws0 ws1 X lit r : List Char) (c : Char) (cs : List Char)
    (hn : param = c :: cs) (hc : isWS c = false)
    (hws0 : ∀ a ∈ ws0, isWS a = true) (hws1 : ∀ a ∈ ws1, isWS a = true)
    (hws1ne : ws1 ≠ [])
    (hX : ∀ hd, X.head? = some hd → isWS hd = false)
    (hnum : matchNumberExp X = some (lit, r)) :
    matchParamAt param (ws0 ++ param ++ ws1 ++ X) = some lit := by
  rw [matchParamAt, matchNamePrefix_spec param ws0 ws1 X c cs hn hc hws0 hws1 hws1ne hX]
  simp [hnum]

/-- C5 counterexample: CPython `\s` also matches `'\n'`, so the `\s+` after
the name crosses line breaks.  On content `"lK\n5.0"` no line has the name
followed by whitespace and a literal — the claim demands absent — yet the
program captures `5.0` from the next line; on `"lK\n999\nlK 100.0"` the
first line of the claimed form is `lK 100.0` — the claim demands 100.0 —
yet the program captures `999`. -/
theorem claim_C5_counterexample :
    ("lK\n5.0".data = "lK".data ++ '\n' :: "5.0".data ∧
      claimLineExtract "lK".data ["lK".data, "5.0".data] = none ∧
      extractParam "lK".data "lK\n5.0".data = some 5) ∧
    ("lK\n999\nlK 100.0".data =
        "lK".data ++ '\n' :: ("999".data ++ '\n' :: "lK 100.0".data) ∧
      claimLineExtract "lK".data ["lK".data, "999".data, "lK 100.0".data] = some 100 ∧
      extractParam "lK".data "lK\n999\nlK 100.0".data = some 999 ∧
      (999 : ℚ) ≠ 100) := by
  have h50 : pyFloat? "5.0".data = some 5 := by
    rw [pyFloat?, show pyFloatTok? "5.0".data = some ⟨false, ['5'], ['0'], false, []⟩ from by decide]
    norm_num [litVal, digitsVal_nil, show digitsVal ['5'] = 5 from by decide,
      show digitsVal ['0'] = 0 from by decide]
  have h100 : pyFloat? "100.0".data = some 100 := by
    rw [pyFloat?,
      show pyFloatTok? "100.0".data = some ⟨false, ['1', '0', '0'], ['0'], false, []⟩ from by decide]
    norm_num [litVal, digitsVal_nil, show digitsVal ['1', '0', '0'] = 100 from by decide,
      show digitsVal ['0'] = 0 from by decide]
  have h999 : pyFloat? "999".data = some 999 := by
    rw [pyFloat?,
      show pyFloatTok? "999".data = some ⟨false, ['9', '9', '9'], [], false, []⟩ from by decide]
    norm_num [litVal, digitsVal_nil, show digitsVal ['9', '9', '9'] = 999 from by decide]
  refine ⟨⟨by decide, by decide, ?_⟩, by decide, ?_, ?_, by norm_num⟩
  · rw [extractParam, show reSearchParam "lK".data "lK\n5.0".data = some "5.0".data from by decide]
    simp [h50]
  · rw [claimLineExtract,
      show (["lK".data, "999".data, "lK 100.0".data].findSome? (matchParamAt "lK".data)) =
        some "100.0".data from by decide]
    simp [h100]
  · rw [extractParam,
      show reSearchParam "lK".data "lK\n999\nlK 100.0".data = some "999".data from by decide]
    simp [h999]

/-- C5 (amended): extraction returns the float of the literal captured by
the leftmost line-start match of `^\s*name\s+literal` over the whole
content — on a position of the form `ws* name ws+ literal ...` this is that
literal, wherever the position sits and whatever the surrounding whitespace
(which may cross line breaks: a name alone at a line end captures the next
literal ahead, as in the counterexample); the name maps to absent exactly
when every line-start attempt fails, and each name is searched by an
independent pass. -/
theorem claim_C5_parameter_extraction :
    (∀ (param content : List Char) (pre : List (List Char)) (s : List Char)
        (post : List (List Char)) (lit : List Char),
      content :: lineStartSuffixes content = pre ++ s :: post →
      (∀ x ∈ pre, matchParamAt param x = none) →
      matchParamAt param s = some lit →
      extractParam param content = some ((pyFloat? lit).getD 0)) ∧
    (∀ param content : List Char,
      (∀ s ∈ content :: lineStartSuffixes content, matchParamAt param s = none) →
      extractParam param content = none) ∧
    (∀ (param ws0 ws1 X lit r : List Char) (c : Char) (cs : List Char),
      param = c :: cs → isWS c = false →
      (∀ a ∈ ws0, isWS a = true) → (∀ a ∈ ws1, isWS a = true) → ws1 ≠ [] →
      (∀ hd, X.head? = some hd → isWS hd = false) →
      matchNumberExp X = some (lit, r) →
      matchParamAt param (ws0 ++ param ++ ws1 ++ X) = some lit) := by
  refine ⟨?_, ?_, matchParamAt_found⟩
  · intro param content pre s post lit hdec hpre hs
    rw [extractParam, reSearchParam, hdec, findSome_first _ pre s post lit hpre hs]
    rfl
  · intro param content h
    rw [extractParam, reSearchParam, findSome_none _ _ h]
    rfl

theorem claim_C5_parameter_extraction_witness :
    extractParam "lK".data "lZ0 50.0\n  lK 100.0 mm\nlKG 30.0".data = some 100 ∧
    extractParam "lSK".data "lZ0 50.0\n  lK 100.0 mm\nlKG 30.0".data = none := by
  constructor
  · have h := claim_C5_parameter_extraction.1 "lK".data
      "lZ0 50.0\n  lK 100.0 mm\nlKG 30.0".data
      ["lZ0 50.0\n  lK 100.0 mm\nlKG 30.0".data]
      "  lK 100.0 mm\nlKG 30.0".data ["lKG 30.0".data] "100.0".data
      (by decide) (by decide) (by decide)
    rw [h, show pyFloat? "100.0".data = some 100 from ?_]
    · rfl
    · rw [pyFloat?,
        show pyFloatTok? "100.0".data = some ⟨false, ['1', '0', '0'], ['0'], false, []⟩ from by decide]
      norm_num [litVal, digitsVal_nil, show digitsVal ['1', '0', '0'] = 100 from by decide,
        show digitsVal ['0'] = 0 from by decide]
  · exact claim_C5_parameter_extraction.2.1 "lSK".data _ (by decide)

/-! ## VariantSynthesizer: geometry-file substitution

From `step2_create_scaled_piston_folders` (DOE_batch_setup.py:405-432):
four passes of
`re.sub(r'(^\s*lK\s+)[-+]?\d*\.?\d+', lambda m: f'{m.group(1)}{scaled_lk}', content, flags=re.MULTILINE)`
(and likewise for lZ0, lKG, lSK) over the whole file content.  The
substitution pattern has no exponent group, unlike the extraction pattern;
and its `\s+` (inside the preserved group 1) also matches `'\n'`, so a name
alone at a line end makes the pattern reach the literal on a later line. -/

/-- The attempt of `(^\s*param\s+)[-+]?\d*\.?\d+` at one position: the
replacement text (group 1 followed by the rendered value) and the remainder
after the matched mantissa. -/
def attemptSubParam (param newNum s : List Char) : Option (List Char × List Char) :=
  (matchNamePrefix param s).bind fun p =>
    (matchMantissa p.2).map fun m => (p.1 ++ newNum, m.2)

/-- One whole-content substitution pass of `step2` for one parameter. -/
def substParam (param newNum content : List Char) : List Char :=
  reSub (attemptSubParam param newNum) content

/-- The four sequential substitutions of `step2` on a geometry file, with
the rendered derived values. -/
def substGeometry (vK vZ0 vKG vSK content : List Char) : List Char :=
  substParam "lSK".data vSK
    (substParam "lKG".data vKG
      (substParam "lZ0".data vZ0
        (substParam "lK".data vK content)))

theorem attemptSubParam_found (param newNum ws0 ws1 num rest : List Char) (c d : Char)
    (cs t : List Char)
    (hn : param = c :: cs) (hc : isWS c = false)
    (hws0 : ∀ a ∈ ws0, isWS a = true) (hws1 : ∀ a ∈ ws1, isWS a = true)
    (hws1ne : ws1 ≠ [])
    (hnum : num = d :: t) (hd : isWS d = false)
    (hmant : matchMantissa (num ++ rest) = some (num, rest)) :
    attemptSubParam param newNum (ws0 ++ param ++ ws1 ++ num ++ rest) =
      some (ws0 ++ param ++ ws1 ++ newNum, rest) := by
  have hX : ∀ hd2, (num ++ rest).head? = some hd2 → isWS hd2 = false := by
    intro hd2 hh
    rw [hnum] at hh
    simp only [List.cons_append, List.head?_cons, Option.some.injEq] at hh
    rw [← hh]
    exact hd
  have he : ws0 ++ param ++ ws1 ++ num ++ rest = ws0 ++ param ++ ws1 ++ (num ++ rest) := by
    simp [List.append_assoc]
  rw [attemptSubParam, he,
    matchNamePrefix_spec param ws0 ws1 (num ++ rest) c cs hn hc hws0 hws1 hws1ne hX]
  simp [hmant]

/-- C6 counterexample, two independent violations of the claim's
only-the-literal-changes guarantee:
(i) the substitution pattern has no exponent group, so on base content
`lK 1.0e1` only the mantissa is replaced and the exponent suffix survives —
the output is `lK 105.0e1`, not `lK 105.0`;
(ii) the `\s+` crosses the line break, so on base content `"lK\n100.0"` —
where no single line carries the name and a literal — the next line is
rewritten instead of the file being left unchanged. -/
theorem claim_C6_counterexample :
    (substParam "lK".data "105.0".data "lK 1.0e1".data = "lK 105.0e1".data ∧
      "lK 105.0e1".data ≠ "lK 105.0".data) ∧
    (substParam "lK".data "105.0".data "lK\n100.0".data = "lK\n105.0".data ∧
      "lK\n105.0".data ≠ "lK\n100.0".data) := by
  exact ⟨⟨by decide, by decide⟩, by decide, by decide⟩

/-- C6 (amended): each substitution pass replaces, at every line-start match
of `^\s*name\s+mantissa` over the whole content, exactly the matched
mantissa (sign, digits, optional decimal part — no exponent suffix) with the
rendered derived value, preserving the whitespace and the name of group 1
and every character after the matched mantissa; the whitespace runs may
cross line breaks, so a name alone at a line end rewrites the next literal
ahead (counterexample ii), and an exponent suffix survives after the
inserted value (counterexample i).  Positions where the pattern does not
match — wrong leading token, no whitespace after the name, or no mantissa —
leave the content unchanged, and at the spec scenario the four passes
produce the expected file. -/
theorem claim_C6_geometry_substitution :
    (∀ (param newNum ws0 ws1 num rest : List Char) (c d : Char) (cs t : List Char),
      param = c :: cs → isWS c = false →
      (∀ a ∈ ws0, isWS a = true) → (∀ a ∈ ws1, isWS a = true) → ws1 ≠ [] →
      num = d :: t → isWS d = false →
      matchMantissa (num ++ rest) = some (num, rest) →
      (∀ s ∈ lineStartSuffixes rest, attemptSubParam param newNum s = none) →
      substParam param newNum (ws0 ++ param ++ ws1 ++ num ++ rest) =
        ws0 ++ param ++ ws1 ++ newNum ++ rest) ∧
    (∀ param newNum content : List Char,
      attemptSubParam param newNum content = none →
      (∀ s ∈ lineStartSuffixes content, attemptSubParam param newNum s = none) →
      substParam param newNum content = content) ∧
    (∀ param newNum s : List Char,
      param.isPrefixOf (s.dropWhile isWS) = false →
      attemptSubParam param newNum s = none) ∧
    (∀ param newNum s : List Char,
      (((s.dropWhile isWS).drop param.length).takeWhile isWS).isEmpty = true →
      attemptSubParam param newNum s = none) ∧
    (∀ param newNum s : List Char,
      matchMantissa (((s.dropWhile isWS).drop param.length).dropWhile isWS) = none →
      attemptSubParam param newNum s = none) ∧
    substGeometry "105.0".data "45.0".data "34.3".data "22.25".data
        "lK 100.0\nlZ0 50.0\nlKG 30.0\nlSK 20.0".data =
      "lK 105.0\nlZ0 45.0\nlKG 34.3\nlSK 22.25".data := by
  refine ⟨?_, ?_, ?_, ?_, ?_, by decide⟩
  · intro param newNum ws0 ws1 num rest c d cs t hn hc hws0 hws1 hws1ne hnum hd hmant hafter
    have hatt := attemptSubParam_found param newNum ws0 ws1 num rest c d cs t hn hc
      hws0 hws1 hws1ne hnum hd hmant
    have hne : ws0 ++ param ++ ws1 ++ num ++ rest ≠ [] := by
      intro h
      have h2 := congrArg List.length h
      rw [hn] at h2
      simp at h2
    rw [substParam, reSub_head_match (attemptSubParam param newNum) _ _ _ hne hatt hafter]
  · intro param newNum content h1 h2
    rw [substParam, reSub]
    exact reSubGo_no_match _ _ true content (fun _ => h1) h2
  · intro param newNum s h
    rw [attemptSubParam, matchNamePrefix]
    simp [h]
  · intro param newNum s h
    by_cases hp : param.isPrefixOf (s.dropWhile isWS)
    · rw [attemptSubParam, matchNamePrefix]
      simp [hp, h]
    · rw [attemptSubParam, matchNamePrefix]
      simp [hp]
  · intro param newNum s h
    by_cases hp : param.isPrefixOf (s.dropWhile isWS)
    · by_cases hw : (((s.dropWhile isWS).drop param.length).takeWhile isWS).isEmpty
      · rw [attemptSubParam, matchNamePrefix]
        simp [hp, hw]
      · rw [attemptSubParam, matchNamePrefix]
        simp [hp, hw, h]
    · rw [attemptSubParam, matchNamePrefix]
      simp [hp]

theorem claim_C6_geometry_substitution_witness :
    substParam "lK".data "105.0".data
        ([] ++ "lK".data ++ " ".data ++ "100.0".data ++ " mm\nlZ0 50.0".data) =
      [] ++ "lK".data ++ " ".data ++ "105.0".data ++ " mm\nlZ0 50.0".data :=
  claim_C6_geometry_substitution.1 "lK".data "105.0".data [] " ".data
    "100.0".data " mm\nlZ0 50.0".data 'l' '1' "K".data "00.0".data rfl (by decide)
    (by decide) (by decide) (by decide) rfl (by decide) (by decide) (by decide)

/-! ## VariantSynthesizer: solver-option file

From `step2_create_scaled_piston_folders` (DOE_batch_setup.py:440-465):
`options_piston_file = dest_t_folder / 'input' / 'options_piston.txt'` is the
only path consulted; if it exists, the file is read with
`open(..., 'r', encoding='latin-1')`, rewritten with
`re.sub(r'(^\s*IM_piston_path\s+).*$', lambda m: f'{m.group(1)}{im_piston_path}', content, flags=re.MULTILINE)`
and written back with latin-1.  The latin-1 codec maps each byte to the code
point of equal value, so the in-memory text is one `Char` per byte — except
that text mode applies universal-newline translation on read (`"\r\n"` and
`"\r"` become `"\n"`, modelled by `univNewlines` below) and translates
`"\n"` to `os.linesep` on write (the identity on POSIX conventions).  In the
pattern, `.*` runs to the next `'\n'` or the end, where `$` always holds;
the `\s+` run of group 1 also matches `'\n'`, so a name alone at a line end
makes `.*$` consume — and the substitution replace — the next line. -/

inductive OptLocation
  | inputSubfolder
  | subCaseRoot
deriving DecidableEq

/-- Where the code looks for `options_piston.txt`, as a function of which
candidate locations hold the file: only the replica's input subfolder is
tested (the second flag is deliberately ignored, matching the source). -/
def locateOptionsFile (existsInInput _existsAtRoot : Bool) : Option OptLocation :=
  if existsInInput then some .inputSubfolder else none

/-- Written from the claim's words (refinement comparison): "checking both
candidate locations (the input subfolder and the sub-case root)", input
subfolder first. -/
def claimLocateOptionsFile (existsInInput existsAtRoot : Bool) : Option OptLocation :=
  if existsInInput then some .inputSubfolder
  else if existsAtRoot then some .subCaseRoot
  else none

def optName : List Char := "IM_piston_path".data

/-- The attempt of `(^\s*IM_piston_path\s+).*$` at one position: `.*` takes
everything up to the next `'\n'` or the end, and the replacement is group 1
followed by the recorded path. -/
def attemptSubOptions (path s : List Char) : Option (List Char × List Char) :=
  (matchNamePrefix optName s).map fun p =>
    (p.1 ++ path, p.2.dropWhile fun ch => ch != '\n')

/-- The whole-content options rewrite. -/
def substOptions (path content : List Char) : List Char :=
  reSub (attemptSubOptions path) content

/-- Universal-newline translation applied by the text-mode read:
`"\r\n"` and lone `"\r"` become `"\n"`. -/
def univNewlines : List Char → List Char
  | [] => []
  | [c] => if c = '\r' then ['\n'] else [c]
  | c :: c2 :: rest =>
    if c = '\r' then
      if c2 = '\n' then '\n' :: univNewlines rest
      else '\n' :: univNewlines (c2 :: rest)
    else c :: univNewlines (c2 :: rest)

theorem univNewlines_no_cr : ∀ l : List Char, '\r' ∉ l → univNewlines l = l
  | [] => fun _ => rfl
  | [c] => fun h => by
    have hc : ¬ c = '\r' := fun hh => h (by rw [hh]; exact List.mem_cons_self _ _)
    simp [univNewlines, hc]
  | c :: c2 :: rest => fun h => by
    have hc : ¬ c = '\r' := fun hh => h (by rw [hh]; exact List.mem_cons_self _ _)
    have ih := univNewlines_no_cr (c2 :: rest) fun hm => h (List.mem_cons_of_mem c hm)
    simp only [univNewlines, if_neg hc, ih]

theorem dropWhile_neq_nl (lineRest rest : List Char)
    (hnl : ∀ a ∈ lineRest, (a == '\n') = false)
    (hrest : rest = [] ∨ ∃ r, rest = '\n' :: r) :
    (lineRest ++ rest).dropWhile (fun ch => ch != '\n') = rest := by
  induction lineRest with
  | nil =>
    rcases hrest with h | ⟨r, h⟩
    · subst h
      rfl
    · subst h
      simp [List.dropWhile_cons]
  | cons a as ih =>
    have ha := hnl a (List.mem_cons_self a as)
    simp only [List.cons_append, List.dropWhile_cons, bne, ha, Bool.not_false, if_true]
    exact ih fun y hy => hnl y (List.mem_cons_of_mem a hy)

theorem attemptSubOptions_found (path ws0 ws1 lineRest rest : List Char) (e : Char)
    (es : List Char)
    (hws0 : ∀ a ∈ ws0, isWS a = true) (hws1 : ∀ a ∈ ws1, isWS a = true)
    (hws1ne : ws1 ≠ [])
    (hlr : lineRest = e :: es) (he : isWS e = false)
    (hnl : ∀ a ∈ lineRest, (a == '\n') = false)
    (hrest : rest = [] ∨ ∃ r, rest = '\n' :: r) :
    attemptSubOptions path (ws0 ++ optName ++ ws1 ++ lineRest ++ rest) =
      some (ws0 ++ optName ++ ws1 ++ path, rest) := by
  have hX : ∀ hd2, (lineRest ++ rest).head? = some hd2 → isWS hd2 = false := by
    intro hd2 hh
    rw [hlr] at hh
    simp only [List.cons_append, List.head?_cons, Option.some.injEq] at hh
    rw [← hh]
    exact he
  have hassoc : ws0 ++ optName ++ ws1 ++ lineRest ++ rest =
      ws0 ++ optName ++ ws1 ++ (lineRest ++ rest) := by
    simp [List.append_assoc]
  rw [attemptSubOptions, hassoc,
    matchNamePrefix_spec optName ws0 ws1 (lineRest ++ rest) 'I' "M_piston_path".data rfl
      (by decide) hws0 hws1 hws1ne hX]
  simp [dropWhile_neq_nl lineRest rest hnl hrest]

/-- C7 counterexample, three violations of the original claim:
(i) when the solver-option file is absent from the input subfolder but
present at the sub-case root, the code finds nothing, while the claim's
both-locations lookup finds the root copy;
(ii) the `\s+` of group 1 crosses the line break, so on content
`"IM_piston_path \nfoo"` the next line `foo` is replaced by the path — the
rewrite is not confined to the value on the name's line;
(iii) the text-mode read translates a lone `'\r'` (byte 0x0D) to `'\n'`, so
the round trip is not byte-for-byte. -/
theorem claim_C7_counterexample :
    (locateOptionsFile false true ≠ claimLocateOptionsFile false true ∧
      locateOptionsFile false true = none ∧
      claimLocateOptionsFile false true = some OptLocation.subCaseRoot) ∧
    (substOptions "NEWPATH".data "IM_piston_path \nfoo".data =
        "IM_piston_path \nNEWPATH".data ∧
      "IM_piston_path \nNEWPATH".data ≠ "IM_piston_path \nfoo".data) ∧
    (univNewlines "a\rb".data = "a\nb".data ∧ "a\nb".data ≠ "a\rb".data) := by
  exact ⟨⟨by decide, rfl, rfl⟩, ⟨by decide, by decide⟩, by decide, by decide⟩

/-- C7 (amended): the solver-option file is looked up only in the replica's
input subfolder — a copy at the sub-case root is never found.  The latin-1
codec is byte-lossless, but the text-mode read's universal-newline
translation rewrites carriage returns, so the file is preserved at the byte
level only when free of `'\r'` (0x0D); on the in-memory text, each
line-start match of `IM_piston_path` followed by whitespace — a run that may
cross the line break, in which case the next line is what gets replaced
(counterexample ii) — has everything up to the end of the matched line
replaced by the recorded working-subfolder path, group 1 (leading
whitespace, name and the whitespace after it) is preserved, and content at
positions where the pattern does not match is kept unchanged. -/
theorem claim_C7_options_rewrite :
    (∀ b : Bool, locateOptionsFile true b = some OptLocation.inputSubfolder ∧
      locateOptionsFile false b = none) ∧
    (∀ content : List Char, '\r' ∉ content → univNewlines content = content) ∧
    (∀ (path ws0 ws1 lineRest rest : List Char) (e : Char) (es : List Char),
      (∀ a ∈ ws0, isWS a = true) → (∀ a ∈ ws1, isWS a = true) → ws1 ≠ [] →
      lineRest = e :: es → isWS e = false →
      (∀ a ∈ lineRest, (a == '\n') = false) →
      (rest = [] ∨ ∃ r, rest = '\n' :: r) →
      (∀ s ∈ lineStartSuffixes rest, attemptSubOptions path s = none) →
      substOptions path (ws0 ++ optName ++ ws1 ++ lineRest ++ rest) =
        ws0 ++ optName ++ ws1 ++ path ++ rest) ∧
    (∀ path content : List Char,
      attemptSubOptions path content = none →
      (∀ s ∈ lineStartSuffixes content, attemptSubOptions path s = none) →
      substOptions path content = content) ∧
    (∀ path s : List Char,
      optName.isPrefixOf (s.dropWhile isWS) = false →
      attemptSubOptions path s = none) ∧
    (∀ path s : List Char,
      (((s.dropWhile isWS).drop optName.length).takeWhile isWS).isEmpty = true →
      attemptSubOptions path s = none) := by
  refine ⟨fun b => ⟨rfl, rfl⟩, univNewlines_no_cr, ?_, ?_, ?_, ?_⟩
  · intro path ws0 ws1 lineRest rest e es hws0 hws1 hws1ne hlr he hnl hrest hafter
    have hatt := attemptSubOptions_found path ws0 ws1 lineRest rest e es hws0 hws1
      hws1ne hlr he hnl hrest
    have hne : ws0 ++ optName ++ ws1 ++ lineRest ++ rest ≠ [] := by
      intro h
      have h2 := congrArg List.length h
      rw [hlr] at h2
      simp at h2
    rw [substOptions, reSub_head_match (attemptSubOptions path) _ _ _ hne hatt hafter]
  · intro path content h1 h2
    rw [substOptions, reSub]
    exact reSubGo_no_match _ _ true content (fun _ => h1) h2
  · intro path s h
    rw [attemptSubOptions, matchNamePrefix]
    simp [h]
  · intro path s h
    by_cases hp : optName.isPrefixOf (s.dropWhile isWS)
    · rw [attemptSubOptions, matchNamePrefix]
      simp [hp, h]
    · rw [attemptSubOptions, matchNamePrefix]
      simp [hp]

theorem claim_C7_options_rewrite_witness :
    substOptions "D:/sim/IM_piston".data
        ([] ++ optName ++ " ".data ++ "C:/old".data ++ "\nother 1".data) =
      [] ++ optName ++ " ".data ++ "D:/sim/IM_piston".data ++ "\nother 1".data :=
  claim_C7_options_rewrite.2.2.1 "D:/sim/IM_piston".data [] " ".data "C:/old".data
    "\nother 1".data 'C' ":/old".data (by decide) (by decide) (by decide) rfl
    (by decide) (by decide) (Or.inr ⟨"other 1".data, rfl⟩) (by decide)

/-! ## BatchCoordinator

From `run_z_scaler` (run_piston_scaling.py:145-196, the isolated-subprocess
revision with `timeout=300`; DOE_batch_setup.py:704-742 is the in-process
revision with the same loop shape and statuses minus the timeout case) and
the summary lines `success_count = sum(1 for v in results.values() if v == 'success')`,
`Failed: len(results) - success_count`.

A variant directory is modelled by its name, whether `scalar.txt` exists in
it, and the outcome of dispatching the scaler over it; `sorted(...)` over
paths sharing one parent directory is lexicographic comparison of the names
by code point, which Python string comparison performs.  The `results` dict,
keyed by the distinct folder names in insertion order, is modelled as the
association list produced in loop order. -/

/-- Outcome of one dispatched rescale task. -/
inductive Dispatch
  | completed (returncode : ℤ)
  | timedOut
  | raised (msg : List Char)
deriving DecidableEq

structure Variant where
  name : List Char
  hasScalar : Bool
  dispatch : Dispatch
deriving DecidableEq

/-- Lexicographic-by-code-point string comparison (Python `<=` on str). -/
def strLe : List Char → List Char → Bool
  | [], _ => true
  | _ :: _, [] => false
  | c :: cs, d :: ds => if c = d then strLe cs ds else decide (c < d)

/-- The status string recorded for one folder by the loop body. -/
def statusOf (v : Variant) : List Char :=
  if v.hasScalar = false then "skipped - no scalar.txt".data
  else
    match v.dispatch with
    | .completed rc => if rc = 0 then "success".data else "failed - ".data ++ intDec rc
    | .timedOut => "timeout".data
    | .raised m => "error - ".data ++ m

/-- The whole `run_z_scaler` loop: statuses in sorted folder order. -/
def runZScaler (vs : List Variant) : List (List Char × List Char) :=
  (vs.mergeSort (fun a b => strLe a.name b.name)).map (fun v => (v.name, statusOf v))

/-- `timeout=300  # 5 minute timeout` -/
def timeoutSeconds : ℕ := 300

theorem strLe_total : ∀ a b : List Char, (strLe a b || strLe b a) = true := by
  intro a
  induction a with
  | nil => intro b; simp [strLe]
  | cons c cs ih =>
    intro b
    cases b with
    | nil => simp [strLe]
    | cons d ds =>
      by_cases hcd : c = d
      · subst hcd
        simpa [strLe] using ih ds
      · have hdc : ¬ d = c := fun h => hcd h.symm
        rcases lt_trichotomy c d with h | h | h
        · simp [strLe, hcd, hdc, h]
        · exact absurd h hcd
        · simp [strLe, hcd, hdc, h, not_lt_of_gt h]

theorem strLe_trans : ∀ a b c : List Char,
    strLe a b = true → strLe b c = true → strLe a c = true := by
  intro a
  induction a with
  | nil => intro b c _ _; rfl
  | cons x xs ih =>
    intro b c hab hbc
    cases b with
    | nil => simp [strLe] at hab
    | cons y ys =>
      cases c with
      | nil => simp [strLe] at hbc
      | cons z zs =>
        by_cases hxy : x = y <;> by_cases hyz : y = z
        · subst hxy
          subst hyz
          rw [strLe] at hab hbc ⊢
          simp only [if_pos rfl] at hab hbc ⊢
          exact ih ys zs hab hbc
        · subst hxy
          rw [strLe] at hbc ⊢
          rw [if_neg hyz] at hbc
          rw [if_neg hyz]
          exact hbc
        · subst hyz
          rw [strLe] at hab ⊢
          rw [if_neg hxy] at hab
          rw [if_neg hxy]
          exact hab
        · rw [strLe] at hab hbc
          rw [if_neg hxy] at hab
          rw [if_neg hyz] at hbc
          have hxz : x < z := lt_trans (of_decide_eq_true hab) (of_decide_eq_true hbc)
          rw [strLe, if_neg (ne_of_lt hxz), decide_eq_true hxz]

theorem append_ne_of_head_ne {a b : Char} (h : a ≠ b) (l1 t1 l2 : List Char) :
    (a :: l1) ++ t1 ≠ b :: l2 := by
  simp [h]

/-- C8: the batch loop processes the discovered variant directories in sorted
(lexicographic) order; a variant with no scalar-config file is marked with the
skipped status and the loop continues; every discovered variant receives
exactly one recorded status (no exception aborts the loop, the loop body being
a total function of the variant); the success, failed, skipped, timeout and
error statuses are pairwise distinct strings; the subprocess timeout bound is
300 seconds = 5 minutes. -/
theorem claim_C8_batch_loop :
    (∀ vs : List Variant,
      (runZScaler vs).map Prod.fst =
        (vs.mergeSort (fun a b => strLe a.name b.name)).map Variant.name ∧
      ((runZScaler vs).map Prod.fst).Pairwise (fun a b => strLe a b = true) ∧
      (runZScaler vs).length = vs.length) ∧
    (∀ (vs : List Variant) (v : Variant), v ∈ vs →
      (v.name, statusOf v) ∈ runZScaler vs) ∧
    (∀ (vs : List Variant) (v : Variant), v ∈ vs → v.hasScalar = false →
      (v.name, "skipped - no scalar.txt".data) ∈ runZScaler vs) ∧
    (∀ (rc : ℤ) (m : List Char),
      "success".data ≠ "skipped - no scalar.txt".data ∧
      "success".data ≠ "timeout".data ∧
      "success".data ≠ "failed - ".data ++ intDec rc ∧
      "success".data ≠ "error - ".data ++ m ∧
      "timeout".data ≠ "skipped - no scalar.txt".data ∧
      "timeout".data ≠ "failed - ".data ++ intDec rc ∧
      "timeout".data ≠ "error - ".data ++ m ∧
      "skipped - no scalar.txt".data ≠ "failed - ".data ++ intDec rc ∧
      "skipped - no scalar.txt".data ≠ "error - ".data ++ m ∧
      "failed - ".data ++ intDec rc ≠ "error - ".data ++ m) ∧
    timeoutSeconds = 5 * 60 := by
  refine ⟨?_, ?_, ?_, ?_, rfl⟩
  · intro vs
    refine ⟨by simp [runZScaler], ?_, by simp [runZScaler]⟩
    rw [runZScaler, List.map_map]
    have hsorted := List.sorted_mergeSort
      (fun a b c => strLe_trans a.name b.name c.name)
      (fun (a b : Variant) => strLe_total a.name b.name) vs
    rw [List.pairwise_map]
    exact hsorted.imp (fun h => h)
  · intro vs v hv
    exact List.mem_map_of_mem _ (List.mem_mergeSort.mpr hv)
  · intro vs v hv hns
    have hst : statusOf v = "skipped - no scalar.txt".data := by rw [statusOf, if_pos hns]
    rw [← hst]
    exact List.mem_map_of_mem _ (List.mem_mergeSort.mpr hv)
  · intro rc m
    refine ⟨by decide, by decide, ?_, ?_, by decide, ?_, ?_, ?_, ?_, ?_⟩
    · exact fun h => append_ne_of_head_ne (by decide) "ailed - ".data (intDec rc) _ h.symm
    · exact fun h => append_ne_of_head_ne (by decide) "rror - ".data m _ h.symm
    · exact fun h => append_ne_of_head_ne (by decide) "ailed - ".data (intDec rc) _ h.symm
    · exact fun h => append_ne_of_head_ne (by decide) "rror - ".data m _ h.symm
    · exact fun h => append_ne_of_head_ne (by decide) "ailed - ".data (intDec rc) _ h.symm
    · exact fun h => append_ne_of_head_ne (by decide) "rror - ".data m _ h.symm
    · intro h
      have h2 : ('f' :: ("ailed - ".data ++ intDec rc)) = 'e' :: ("rror - ".data ++ m) := h
      simp at h2

theorem claim_C8_batch_loop_witness :
    (⟨"IM_scaled_piston_2".data, false, Dispatch.completed 0⟩ : Variant) ∈
      ([⟨"IM_scaled_piston_2".data, false, .completed 0⟩,
        ⟨"IM_scaled_piston_1".data, true, .completed 0⟩,
        ⟨"IM_scaled_piston_3".data, true, .completed 1⟩] : List Variant) ∧
    ("IM_scaled_piston_2".data, "skipped - no scalar.txt".data) ∈
      runZScaler [⟨"IM_scaled_piston_2".data, false, .completed 0⟩,
        ⟨"IM_scaled_piston_1".data, true, .completed 0⟩,
        ⟨"IM_scaled_piston_3".data, true, .completed 1⟩] ∧
    ("IM_scaled_piston_1".data, statusOf ⟨"IM_scaled_piston_1".data, true, .completed 0⟩) ∈
      runZScaler [⟨"IM_scaled_piston_2".data, false, .completed 0⟩,
        ⟨"IM_scaled_piston_1".data, true, .completed 0⟩,
        ⟨"IM_scaled_piston_3".data, true, .completed 1⟩] := by
  refine ⟨by decide, ?_, ?_⟩
  · exact claim_C8_batch_loop.2.2.1
      [⟨"IM_scaled_piston_2".data, false, .completed 0⟩,
        ⟨"IM_scaled_piston_1".data, true, .completed 0⟩,
        ⟨"IM_scaled_piston_3".data, true, .completed 1⟩]
      ⟨"IM_scaled_piston_2".data, false, .completed 0⟩ (by decide) rfl
  · exact claim_C8_batch_loop.2.1
      [⟨"IM_scaled_piston_2".data, false, .completed 0⟩,
        ⟨"IM_scaled_piston_1".data, true, .completed 0⟩,
        ⟨"IM_scaled_piston_3".data, true, .completed 1⟩]
      ⟨"IM_scaled_piston_1".data, true, .completed 0⟩ (by decide)

/-! ## Batch summary counting -/

/-- `success_count = sum(1 for v in results.values() if v == 'success')` -/
def successCount (results : List (List Char × List Char)) : ℕ :=
  results.countP (fun p => p.2 == "success".data)

/-- The `Failed:` figure printed by the summary:
`len(results) - success_count`. -/
def failedReported (results : List (List Char × List Char)) : ℕ :=
  results.length - successCount results

/-- C10: the reported failed count equals the number of processed variants
whose status is not exactly the success string, so skipped, timeout and
error-with-detail entries are all tallied as failed even though their
statuses are distinct from the failed status. -/
theorem claim_C10_failed_count :
    (∀ results : List (List Char × List Char),
      failedReported results = results.countP (fun p => ! (p.2 == "success".data))) ∧
    (∀ (rc : ℤ) (m : List Char),
      ("skipped - no scalar.txt".data == "success".data) = false ∧
      ("timeout".data == "success".data) = false ∧
      (("failed - ".data ++ intDec rc) == "success".data) = false ∧
      (("error - ".data ++ m) == "success".data) = false) := by
  constructor
  · intro results
    induction results with
    | nil => rfl
    | cons r rs ih =>
      have hsc : List.countP (fun p => p.2 == "success".data) rs ≤ rs.length :=
        List.countP_le_length _
      rw [failedReported, successCount] at ih ⊢
      rw [List.countP_cons, List.countP_cons, List.length_cons]
      simp only [show "success".data = ['s', 'u', 'c', 'c', 'e', 's', 's'] from rfl] at ih hsc ⊢
      cases h : (r.2 == "success".data)
      · simp only [h, Bool.false_eq_true, if_false, Bool.not_false, if_true]
        omega
      · simp only [h, if_true, Bool.not_true, Bool.false_eq_true, if_false]
        omega
  · intro rc m
    refine ⟨by decide, by decide, ?_, ?_⟩
    · rw [beq_eq_false_iff_ne]
      exact append_ne_of_head_ne (by decide) "ailed - ".data (intDec rc) _
    · rw [beq_eq_false_iff_ne]
      exact append_ne_of_head_ne (by decide) "rror - ".data m _

end GapDOE
